import Mathlib

/-!
Verification of the hooker directory-watcher core: the dispatcher
(controller.go) and the per-file worker state machine (parser.go),
shallowly embedded in Lean.

The dispatcher keeps a map from filename to the worker's completion
channel; spawn admits a file only when its name is untracked, and a
watcher deletes the entry when the worker signals.  The worker runs a
size-stabilization loop, a validation loop, an upload loop with
exponential backoff, optional zipping, and optional deletion, and
signals completion through a deferred channel send on every exit path.
-/

namespace Hooker

/-- Configuration record, following the fields of `options` in options.go. -/
structure options where
  interval      : Nat
  dir           : String
  out           : String
  patterns      : String
  timeout       : Nat
  verbose       : Bool
  checkInterval : Nat
  url           : String
  token         : String
  zip           : Bool
  clear         : Bool
  separator     : String
  listen        : String
deriving DecidableEq

/-- The slice of `os.FileInfo` the dispatcher and worker consume: the
entry name, the is-directory flag and the size. -/
structure FileInfo where
  name  : String
  isDir : Bool
  size  : Int
deriving DecidableEq

/-- The dispatcher state of controller.go: `files` is the registry map
from filename to completion-channel id (an association list with the
key semantics of a Go map), `nextCh` allocates fresh channel ids (in Go,
`make(chan struct\x7b\x7d)` at each admission), and `spawned` logs every
worker start (`go parser.parse()`), in order. -/
structure ControllerState where
  files   : List (String × Nat)
  nextCh  : Nat
  spawned : List (String × Nat)
deriving DecidableEq

/-- The set of currently tracked filenames (the registry's key set). -/
def trackedNames (s : ControllerState) : List String :=
  s.files.map Prod.fst

/-- `controller.spawn` (controller.go): under the mutex, if the filename
is already in the map return at once; otherwise allocate a channel,
insert the entry, and start the worker. -/
def spawn (s : ControllerState) (file : FileInfo) : ControllerState :=
  if (s.files.lookup file.name).isSome then s
  else
    { files   := (file.name, s.nextCh) :: s.files
      nextCh  := s.nextCh + 1
      spawned := s.spawned ++ [(file.name, s.nextCh)] }

/-- The completion watcher of `controller.spawn`: on receiving the done
signal it deletes the filename from the registry map under the same
mutex (`delete(cc.files, name)`). -/
def release (s : ControllerState) (name : String) : ControllerState :=
  { s with files := s.files.filter (fun p => !(p.1 == name)) }

/-- Outcome of one run of `parser.sendWithBackoff`: how many upload
attempts were made, the waits (in minutes) slept between consecutive
attempts, in order, and whether the run ended in success. -/
structure SendTrace where
  attempts : Nat
  waits    : List Nat
  success  : Bool
deriving DecidableEq

/-- The retry loop of `parser.sendWithBackoff` (parser.go), starting
from attempt counter `backoff`.  `succeeds i` tells whether the i-th
(0-based) call to `post` returns nil.  On failure the counter is
incremented, `mul = 2 ^ backoff` is computed, the loop breaks once the
counter exceeds 5, and otherwise sleeps `mul` minutes and retries. -/
def sendLoop (succeeds : Nat → Bool) (backoff : Nat) : SendTrace :=
  if succeeds backoff then
    { attempts := 1, waits := [], success := true }
  else
    if h : backoff + 1 > 5 then
      { attempts := 1, waits := [], success := false }
    else
      let rest := sendLoop succeeds (backoff + 1)
      { attempts := rest.attempts + 1
        waits    := 2 ^ (backoff + 1) :: rest.waits
        success  := rest.success }
termination_by 6 - backoff
decreasing_by
  simp at h
  omega

/-- `parser.sendWithBackoff`: the retry loop entered with counter 0. -/
def sendWithBackoff (succeeds : Nat → Bool) : SendTrace :=
  sendLoop succeeds 0

/-- The size-stabilization loop of `parser.finishedUpload` (parser.go).
The previous-size tracker `t` is a zero-initialized int64.  Each
iteration stats the file; if the size differs from `t`, store it, sleep
15 seconds and re-check; otherwise break.  The argument list holds the
sizes reported by successive stats; the result is `none` when the list
is exhausted while the loop still runs, and otherwise the number of
stats performed together with the sleeps (in seconds) taken, in order. -/
def sizeStableLoop (t : Int) : List Int → Option (Nat × List Nat)
  | [] => none
  | sz :: rest =>
    if t ≠ sz then
      match sizeStableLoop sz rest with
      | none => none
      | some (n, ws) => some (n + 1, 15 :: ws)
    else
      some (1, [])

/-- The validation loop of `parser.finishedUpload` (parser.go).  Each
iteration re-reads the file; content shorter than 50 bytes, or content
rejected by the XML unmarshaller, causes a sleep of `checkInterval`
seconds and a retry; otherwise the loop returns nil.  `xmlOk` abstracts
the external `encoding/xml` unmarshal into an empty struct (well-formed
markup or not); the argument list holds the byte strings returned by
successive reads.  The result is `none` when the list is exhausted
while the loop still runs, and otherwise the sleeps taken before
success, in order. -/
def validateLoop (xmlOk : List Nat → Bool) (checkInterval : Nat) :
    List (List Nat) → Option (List Nat)
  | [] => none
  | buf :: rest =>
    if buf.length < 50 then
      (validateLoop xmlOk checkInterval rest).map (fun ws => checkInterval :: ws)
    else
      if xmlOk buf then some []
      else (validateLoop xmlOk checkInterval rest).map (fun ws => checkInterval :: ws)

/-- `parser.finishedUpload`: the stabilization loop followed by the
validation loop; returns the stats/sleeps of both phases when both
complete on the observed stats and reads. -/
def finishedUpload (xmlOk : List Nat → Bool) (checkInterval : Nat)
    (sizes : List Int) (reads : List (List Nat)) :
    Option (Nat × List Nat × List Nat) :=
  match sizeStableLoop 0 sizes with
  | none => none
  | some (n, ws) =>
    match validateLoop xmlOk checkInterval reads with
    | none => none
    | some vs => some (n, ws, vs)

/-- An HTTP request as built by `parser.post`: method, target URL, the
headers set on it, and the body bytes. -/
structure HttpRequest where
  method  : String
  url     : String
  headers : List (String × String)
  body    : List Nat
deriving DecidableEq

/-- The request-building half of `parser.post` (parser.go): minify the
payload as XML (`minifyF` abstracts the external minifier, which can
fail), gzip the result (`gzipF` abstracts the gzip stream), error out
when zero bytes were written to the gzip writer, and otherwise build a
POST to the configured URL with the access-token header, the
original-filename header and the gzip encoding marker. -/
def buildPostRequest (minifyF : List Nat → Option (List Nat))
    (gzipF : List Nat → List Nat) (o : options) (filename : String)
    (data : List Nat) : Option HttpRequest :=
  match minifyF data with
  | none => none
  | some minified =>
    if minified.length = 0 then none
    else
      some { method  := "POST"
             url     := o.url
             headers := [("X-Access-Token", o.token),
                         ("X-File-Name", filename),
                         ("Content-Encoding", "gzip")]
             body    := gzipF minified }

/-- `parser.post`: build the request, perform it (`respond` abstracts
the HTTP client; `none` is a transport error, `some s` a completed
response with status `s`), and succeed exactly when the request
completed with status 200 (`http.StatusOK`). -/
def post (minifyF : List Nat → Option (List Nat))
    (gzipF : List Nat → List Nat) (o : options) (filename : String)
    (data : List Nat) (respond : HttpRequest → Option Nat) : Bool :=
  match buildPostRequest minifyF gzipF o filename data with
  | none => false
  | some req =>
    match respond req with
    | none => false
    | some status => status == 200

/-- A zip archive as written by `parser.zipit`: the list of entries,
each an entry name with its bytes.  `zipit` creates the archive with a
single entry named after the source file, holding `data`. -/
structure ZipArchive where
  entries : List (String × List Nat)
deriving DecidableEq

/-- `parser.zipit` (parser.go): one entry, named `file`, holding the
given bytes. -/
def zipit (file : String) (data : List Nat) : ZipArchive :=
  { entries := [(file, data)] }

/-- Model of Go `path.Join` on already-clean segments. -/
def pathJoin (a b : String) : String :=
  a ++ "/" ++ b

/-- Observable events of one `parser.parse` run. -/
inductive Ev where
  | upload (payload : List Nat)
  | zipWrite (zipname : String) (archive : ZipArchive)
  | remove (filePath : String)
  | fatal
  | signal
deriving DecidableEq

/-- Oracles for the fallible steps of `parser.parse`: whether
`finishedUpload` returns nil, what `ioutil.ReadFile` returns, whether
`sendWithBackoff` returns nil, and whether `zipit` / `os.Remove`
succeed. -/
structure ParseOracles where
  finishedOk : Bool
  readResult : Option (List Nat)
  sendOk     : Bool
  zipOk      : Bool
  removeOk   : Bool

/-- The body of `parser.parse` (parser.go), to which the deferred
channel send is appended by `parse`.  A failing step logs via
`log.Fatalf`, modelled as a `fatal` event ending the body (the build
where a fatal error aborts the function but not the process, so the
deferred send still fires).  On a successful upload the body zips the
original payload when the zip policy is set, then removes the source
file when the clear policy or the zip policy is set. -/
def parseBody (o : options) (orc : ParseOracles) (name : String) : List Ev :=
  if orc.finishedOk = false then [Ev.fatal]
  else
    match orc.readResult with
    | none => [Ev.fatal]
    | some buf =>
      if orc.sendOk = false then [Ev.fatal]
      else
        let zipStep : List Ev × Bool :=
          if o.zip then
            if orc.zipOk then
              ([Ev.zipWrite (pathJoin o.out (name ++ ".zip")) (zipit name buf)], true)
            else
              ([Ev.fatal], false)
          else ([], true)
        if zipStep.2 = false then Ev.upload buf :: zipStep.1
        else
          let clearStep : List Ev :=
            if o.clear || o.zip then
              if orc.removeOk then [Ev.remove (pathJoin o.dir name)]
              else [Ev.fatal]
            else []
          Ev.upload buf :: (zipStep.1 ++ clearStep)

/-- `parser.parse`: the body with the deferred completion signal
(`p.ch <- struct\x7b\x7d\x7b\x7d`) appended, as `defer` fires on every
exit path of the function. -/
def parse (o : options) (orc : ParseOracles) (name : String) : List Ev :=
  parseBody o orc name ++ [Ev.signal]

/-! ## Helper lemmas -/

theorem lookup_filter_not_self (l : List (String × Nat)) (n : String) :
    (l.filter (fun p => !(p.1 == n))).lookup n = none := by
  induction l with
  | nil => rfl
  | cons hd tl ih =>
    cases hb : (hd.1 == n) with
    | true => simpa [List.filter, hb] using ih
    | false =>
      have hne : hd.1 ≠ n := by simpa using hb
      have hb2 : (n == hd.1) = false := by
        simpa using fun e => hne e.symm
      simp [List.filter, hb, List.lookup, hb2, ih]

theorem lookup_none_not_mem_keys (l : List (String × Nat)) (n : String)
    (h : l.lookup n = none) : n ∉ l.map Prod.fst := by
  induction l with
  | nil => simp
  | cons hd tl ih =>
    rw [List.lookup] at h
    cases hb : (n == hd.1) with
    | true => rw [hb] at h; simp at h
    | false =>
      rw [hb] at h
      have hne : n ≠ hd.1 := by simpa using hb
      simp only [List.map_cons, List.mem_cons]
      exact fun hc => hc.elim hne (ih h)

/-! ## Claims about the dispatcher (controller.go) -/

/-- C1: admitting a filename that is already present in the registry is
a no-op — the state, in particular the registry map and the log of
started workers, is unchanged — and admission preserves the invariant
that the registry holds at most one entry per filename. -/
theorem spawn_dedup (s : ControllerState) (f : FileInfo) :
    ((s.files.lookup f.name).isSome → spawn s f = s) ∧
    ((s.files.map Prod.fst).Nodup → ((spawn s f).files.map Prod.fst).Nodup) := by
  constructor
  · intro h
    simp [spawn, h]
  · intro hnd
    by_cases h : (s.files.lookup f.name).isSome
    · simpa [spawn, h] using hnd
    · have hn : s.files.lookup f.name = none := by
        cases hl : s.files.lookup f.name with
        | none => rfl
        | some v => simp [hl] at h
      have hmem := lookup_none_not_mem_keys s.files f.name hn
      simp [spawn, h, hmem, hnd]

/-- C1 witness: with "a" already tracked, re-admitting a file named "a"
leaves the state unchanged and key-uniqueness holds. -/
theorem spawn_dedup_witness :
    spawn ⟨[("a", 0)], 1, [("a", 0)]⟩ ⟨"a", false, 10⟩ = ⟨[("a", 0)], 1, [("a", 0)]⟩ ∧
    ((spawn ⟨[("a", 0)], 1, [("a", 0)]⟩ ⟨"a", false, 10⟩).files.map Prod.fst).Nodup :=
  ⟨(spawn_dedup ⟨[("a", 0)], 1, [("a", 0)]⟩ ⟨"a", false, 10⟩).1 (by decide),
   (spawn_dedup ⟨[("a", 0)], 1, [("a", 0)]⟩ ⟨"a", false, 10⟩).2 (by decide)⟩

/-- C6: releasing a tracked filename deletes it from the registry, and
a subsequent admission of the same name behaves like a first admission:
it installs a fresh entry with a fresh channel and starts a new
worker. -/
theorem release_then_spawn (s : ControllerState) (f : FileInfo) :
    f.name ∉ trackedNames (release s f.name) ∧
    (spawn (release s f.name) f).files =
      (f.name, s.nextCh) :: (release s f.name).files ∧
    (spawn (release s f.name) f).spawned = s.spawned ++ [(f.name, s.nextCh)] ∧
    (spawn (release s f.name) f).nextCh = s.nextCh + 1 := by
  have hlook : (release s f.name).files.lookup f.name = none :=
    lookup_filter_not_self s.files f.name
  have hmem := lookup_none_not_mem_keys _ f.name hlook
  refine ⟨by simp [trackedNames, release], ?w1, ?w2, ?w3⟩
  case w1 => simp [spawn, hlook, release]
  case w2 => simp [spawn, hlook, release]
  case w3 => simp [spawn, hlook, release]

/-- C10: spawn applies no filename-pattern or is-directory filtering:
for every file whose name is untracked — directories and non-matching
suffixes included — it installs a registry entry and starts a worker. -/
theorem spawn_no_filter (s : ControllerState) (f : FileInfo)
    (h : s.files.lookup f.name = none) :
    (spawn s f).files = (f.name, s.nextCh) :: s.files ∧
    (spawn s f).spawned = s.spawned ++ [(f.name, s.nextCh)] ∧
    (spawn s f).nextCh = s.nextCh + 1 := by
  refine ⟨?_, ?_, ?_⟩ <;> simp [spawn, h]

/-- C10 witness: a directory entry with a non-matching suffix is still
admitted by spawn itself. -/
theorem spawn_no_filter_witness :
    (spawn ⟨[], 0, []⟩ ⟨"subdir", true, 0⟩).files = [("subdir", 0)] ∧
    (spawn ⟨[], 0, []⟩ ⟨"subdir", true, 0⟩).spawned = [("subdir", 0)] ∧
    (spawn ⟨[], 0, []⟩ ⟨"subdir", true, 0⟩).nextCh = 1 :=
  spawn_no_filter ⟨[], 0, []⟩ ⟨"subdir", true, 0⟩ (by decide)

/-! ## Claims about the upload retry loop (parser.go, sendWithBackoff) -/

theorem range_map_pow_succ (b m : Nat) :
    (List.range (m + 1)).map (fun i => 2 ^ (b + 1 + i)) =
      2 ^ (b + 1) :: (List.range m).map (fun i => 2 ^ (b + 1 + 1 + i)) := by
  rw [List.range_succ_eq_map, List.map_cons, List.map_map]
  refine congrArg₂ _ (by norm_num) ?_
  have hf : ((fun i => 2 ^ (b + 1 + i)) ∘ Nat.succ) =
      (fun i => 2 ^ (b + 1 + 1 + i)) := by
    funext i
    simp only [Function.comp]
    congr 1
    omega
  rw [hf]

theorem sendLoop_allFail (succeeds : Nat → Bool) (h : ∀ i, succeeds i = false) :
    ∀ k b, b + k = 6 → 1 ≤ k →
      sendLoop succeeds b =
        { attempts := k
          waits := (List.range (k - 1)).map (fun i => 2 ^ (b + 1 + i))
          success := false } := by
  intro k
  induction k with
  | zero => intro b _ h1; omega
  | succ k ih =>
    intro b hb _
    rw [sendLoop]
    rw [h b]
    simp only [Bool.false_eq_true, if_false]
    by_cases hk : k = 0
    · subst hk
      have hgt : b + 1 > 5 := by omega
      simp [hgt]
    · have hgt : ¬ b + 1 > 5 := by omega
      rw [dif_neg hgt]
      rw [ih (b + 1) (by omega) (by omega)]
      have hm : k + 1 - 1 = k - 1 + 1 := by omega
      simp [hm, range_map_pow_succ b (k - 1)]

theorem sendLoop_firstSuccess (succeeds : Nat → Bool) :
    ∀ m b, b + m ≤ 5 → (∀ i, i < m → succeeds (b + i) = false) →
      succeeds (b + m) = true →
      sendLoop succeeds b =
        { attempts := m + 1
          waits := (List.range m).map (fun i => 2 ^ (b + 1 + i))
          success := true } := by
  intro m
  induction m with
  | zero =>
    intro b _ _ hs
    rw [sendLoop]
    rw [show b + 0 = b from rfl] at hs
    simp [hs]
  | succ m ih =>
    intro b hb hf hs
    rw [sendLoop]
    have h0 : succeeds b = false := by
      have := hf 0 (Nat.succ_pos m)
      simpa using this
    rw [h0]
    simp only [Bool.false_eq_true, if_false]
    have hgt : ¬ b + 1 > 5 := by omega
    rw [dif_neg hgt]
    have hf1 : ∀ i, i < m → succeeds (b + 1 + i) = false := by
      intro i hi
      have := hf (i + 1) (by omega)
      rw [show b + (i + 1) = b + 1 + i by omega] at this
      exact this
    have hs1 : succeeds (b + 1 + m) = true := by
      rw [show b + 1 + m = b + (m + 1) by omega]
      exact hs
    rw [ih (b + 1) (by omega) hf1 hs1]
    rw [range_map_pow_succ b m]

/-- C2: against an endpoint that always fails, sendWithBackoff makes
exactly 6 upload attempts, sleeps exactly 2, 4, 8, 16, 32 minutes
between consecutive attempts, sleeps nothing after the 6th failure, and
returns a terminal error; if the first success is attempt k+1 (k ≤ 5),
it returns success immediately after k+1 attempts with only the k waits
already taken. -/
theorem sendWithBackoff_schedule (succeeds : Nat → Bool) :
    ((∀ i, succeeds i = false) →
      sendWithBackoff succeeds =
        { attempts := 6, waits := [2, 4, 8, 16, 32], success := false }) ∧
    (∀ k, k ≤ 5 → (∀ i, i < k → succeeds i = false) → succeeds k = true →
      sendWithBackoff succeeds =
        { attempts := k + 1
          waits := (List.range k).map (fun i => 2 ^ (i + 1))
          success := true }) := by
  constructor
  · intro h
    rw [sendWithBackoff, sendLoop_allFail succeeds h 6 0 (by omega) (by omega)]
    decide
  · intro k hk hf hs
    rw [sendWithBackoff,
      sendLoop_firstSuccess succeeds k 0 (by omega) (by simpa using hf)
        (by simpa using hs)]
    have hfun : (fun i => 2 ^ (0 + 1 + i)) = (fun i => 2 ^ (i + 1)) := by
      funext i
      congr 1
      omega
    rw [hfun]

/-- C2 witness: an always-failing endpoint yields the full schedule; an
endpoint failing twice then succeeding yields 3 attempts and waits
2, 4. -/
theorem sendWithBackoff_schedule_witness :
    sendWithBackoff (fun _ => false) =
      { attempts := 6, waits := [2, 4, 8, 16, 32], success := false } ∧
    sendWithBackoff (fun i => decide (i = 2)) =
      { attempts := 3, waits := [2, 4], success := true } := by
  constructor
  · exact (sendWithBackoff_schedule (fun _ => false)).1 (fun i => rfl)
  · have h := (sendWithBackoff_schedule (fun i => decide (i = 2))).2 2
      (by omega) (fun i hi => by simp; omega) (by decide)
    rw [h]
    decide

/-! ## Claims about the stabilization loop (parser.go, finishedUpload) -/

theorem sizeStableLoop_spec (l : List Int) :
    ∀ (t : Int) (n : Nat) (ws : List Nat),
      sizeStableLoop t l = some (n, ws) →
      1 ≤ n ∧ n ≤ l.length ∧ ws = List.replicate (n - 1) 15 ∧
      (if n = 1 then l.get? 0 = some t else l.get? (n - 1) = l.get? (n - 2)) := by
  induction l with
  | nil => intro t n ws h; simp [sizeStableLoop] at h
  | cons sz rest ih =>
    intro t n ws h
    rw [sizeStableLoop] at h
    by_cases ht : t = sz
    · rw [if_neg (by simpa using ht)] at h
      obtain ⟨hn, hw⟩ := Prod.mk.injEq .. ▸ (Option.some.injEq .. ▸ h)
      subst hn
      subst hw
      simp [ht]
    · rw [if_pos (by simpa using ht)] at h
      cases hr : sizeStableLoop sz rest with
      | none => rw [hr] at h; exact absurd h (by simp)
      | some p =>
        obtain ⟨m, ws0⟩ := p
        rw [hr] at h
        obtain ⟨hn, hw⟩ := Prod.mk.injEq .. ▸ (Option.some.injEq .. ▸ h)
        subst hn
        subst hw
        obtain ⟨hm1, hmlen, hws, hget⟩ := ih sz m ws0 hr
        obtain ⟨j, rfl⟩ : ∃ j, m = j + 1 := ⟨m - 1, by omega⟩
        refine ⟨by omega, by simpa using hmlen, ?_, ?_⟩
        · rw [hws]
          rw [show j + 1 + 1 - 1 = (j + 1 - 1) + 1 by omega]
          rw [List.replicate_succ]
        · rw [if_neg (by omega)]
          cases j with
          | zero =>
            rw [if_pos rfl] at hget
            simpa using hget
          | succ i =>
            rw [if_neg (by omega)] at hget
            simpa using hget

/-- C3 counterexample: the previous-size tracker starts at 0, so a run
whose very first stat reports size 0 completes the stabilization loop
with a single stat — refuting "transition only after two consecutive
stat observations report the same size" as a universal statement. -/
theorem sizeStableLoop_zero_counterexample :
    ¬ (∀ (l : List Int) (n : Nat) (ws : List Nat),
        sizeStableLoop 0 l = some (n, ws) → 2 ≤ n) :=
  fun h => absurd (h [0] 1 [] (by decide)) (by omega)

/-- C3 (amended): for every run whose first stat is nonzero, the loop
transitions to validation only after two consecutive stats report the
same size — at least two stats happen, every wait between differing
observations is exactly 15 seconds, and the last two observations
agree; the sequence 10, 10 finishes after one stable comparison with
one wait, and 10, 20, 20 needs one extra wait cycle. -/
theorem finishedUpload_stabilization (l : List Int) (n : Nat) (ws : List Nat)
    (h0 : l.head? ≠ some 0) (h : sizeStableLoop 0 l = some (n, ws)) :
    2 ≤ n ∧ n ≤ l.length ∧ ws = List.replicate (n - 1) 15 ∧
    l.get? (n - 1) = l.get? (n - 2) ∧
    sizeStableLoop 0 [10, 10] = some (2, [15]) ∧
    sizeStableLoop 0 [10, 20, 20] = some (3, [15, 15]) := by
  obtain ⟨h1, hlen, hws, hget⟩ := sizeStableLoop_spec l 0 n ws h
  have hn2 : 2 ≤ n := by
    rcases Nat.lt_or_ge n 2 with hlt | hge
    · exfalso
      have hn1 : n = 1 := by omega
      rw [if_pos hn1] at hget
      rw [← List.get?_zero] at h0
      exact h0 hget
    · exact hge
  rw [if_neg (by omega)] at hget
  exact ⟨hn2, hlen, hws, hget, by decide, by decide⟩

/-- C3 witness: the run observing sizes 10, 10. -/
theorem finishedUpload_stabilization_witness :
    2 ≤ 2 ∧ 2 ≤ ([10, 10] : List Int).length ∧
    ([15] : List Nat) = List.replicate (2 - 1) 15 ∧
    ([10, 10] : List Int).get? (2 - 1) = ([10, 10] : List Int).get? (2 - 2) ∧
    sizeStableLoop 0 [10, 10] = some (2, [15]) ∧
    sizeStableLoop 0 [10, 20, 20] = some (3, [15, 15]) :=
  finishedUpload_stabilization [10, 10] 2 [15] (by decide) (by decide)

/-- C9: since the previous-size tracker is zero-initialized, a file
whose very first stat reports size 0 is declared stable immediately —
one stat, no wait — and the run proceeds straight to validation. -/
theorem stabilization_zero_first_stat (rest : List Int) :
    sizeStableLoop 0 (0 :: rest) = some (1, []) := by
  rw [sizeStableLoop]
  simp

/-! ## Claims about the validation loop (parser.go, finishedUpload) -/

/-- C4: in every iteration, content shorter than 50 bytes is rejected
and retried after the configured check interval; content of at least 50
bytes rejected by the XML parser is likewise retried after the check
interval; well-formed content of at least 50 bytes returns success; and
rejection never terminates the loop — a run all of whose reads are
rejected is still looping, with no attempt cap. -/
theorem validateLoop_spec (xmlOk : List Nat → Bool) (ci : Nat) :
    (∀ (buf : List Nat) (rest : List (List Nat)), buf.length < 50 →
      validateLoop xmlOk ci (buf :: rest) =
        (validateLoop xmlOk ci rest).map (fun ws => ci :: ws)) ∧
    (∀ (buf : List Nat) (rest : List (List Nat)), 50 ≤ buf.length →
      xmlOk buf = false →
      validateLoop xmlOk ci (buf :: rest) =
        (validateLoop xmlOk ci rest).map (fun ws => ci :: ws)) ∧
    (∀ (buf : List Nat) (rest : List (List Nat)), 50 ≤ buf.length →
      xmlOk buf = true →
      validateLoop xmlOk ci (buf :: rest) = some []) ∧
    (∀ reads : List (List Nat),
      (∀ buf ∈ reads, buf.length < 50 ∨ xmlOk buf = false) →
      validateLoop xmlOk ci reads = none) := by
  refine ⟨?_, ?_, ?_, ?_⟩
  · intro buf rest h
    rw [validateLoop, if_pos h]
  · intro buf rest h hx
    rw [validateLoop, if_neg (by omega), if_neg (by simp [hx])]
  · intro buf rest h hx
    rw [validateLoop, if_neg (by omega), if_pos hx]
  · intro reads hall
    induction reads with
    | nil => rfl
    | cons buf rest ih =>
      have htl : validateLoop xmlOk ci rest = none :=
        ih (fun b hb => hall b (List.mem_cons_of_mem _ hb))
      by_cases hl : buf.length < 50
      · rw [validateLoop, if_pos hl, htl]
        rfl
      · rcases hall buf (List.mem_cons_self ..) with hs | hx
        · omega
        · rw [validateLoop, if_neg hl, if_neg (by simp [hx]), htl]
          rfl

/-- C4 witness: with well-formedness meaning "contains the byte 1", a
short read and a long malformed read are each retried, a long
well-formed read succeeds, and a run of only rejected reads is still
looping. -/
theorem validateLoop_spec_witness :
    validateLoop (fun b => decide (1 ∈ b)) 180 [[2]] =
      (validateLoop (fun b => decide (1 ∈ b)) 180 []).map (fun ws => 180 :: ws) ∧
    validateLoop (fun b => decide (1 ∈ b)) 180 [List.replicate 50 2] =
      (validateLoop (fun b => decide (1 ∈ b)) 180 []).map (fun ws => 180 :: ws) ∧
    validateLoop (fun b => decide (1 ∈ b)) 180 [1 :: List.replicate 49 2] = some [] ∧
    validateLoop (fun b => decide (1 ∈ b)) 180 [[2], List.replicate 50 2] = none :=
  ⟨(validateLoop_spec (fun b => decide (1 ∈ b)) 180).1 [2] [] (by decide),
   (validateLoop_spec (fun b => decide (1 ∈ b)) 180).2.1 (List.replicate 50 2) []
     (by decide) (by decide),
   (validateLoop_spec (fun b => decide (1 ∈ b)) 180).2.2.1 (1 :: List.replicate 49 2) []
     (by decide) (by decide),
   (validateLoop_spec (fun b => decide (1 ∈ b)) 180).2.2.2 [[2], List.replicate 50 2]
     (by decide)⟩

/-! ## Claims about the upload request (parser.go, post) -/

/-- C5: when the minifier succeeds and writes a nonzero number of
bytes, the request built by post is a POST to the configured URL
carrying exactly the access-token, original-filename and gzip-encoding
headers, with body the gzip of the minified payload; post succeeds iff
the request completed with status exactly 200, and any other status —
other 2xx included — is a failure just like a transport error. -/
theorem post_spec (minifyF : List Nat → Option (List Nat))
    (gzipF : List Nat → List Nat) (o : options) (filename : String)
    (data minified : List Nat) (respond : HttpRequest → Option Nat) :
    (minifyF data = some minified → minified.length ≠ 0 →
      buildPostRequest minifyF gzipF o filename data =
        some { method  := "POST"
               url     := o.url
               headers := [("X-Access-Token", o.token),
                           ("X-File-Name", filename),
                           ("Content-Encoding", "gzip")]
               body    := gzipF minified }) ∧
    (∀ req status, buildPostRequest minifyF gzipF o filename data = some req →
      respond req = some status →
      (post minifyF gzipF o filename data respond = true ↔ status = 200)) ∧
    (∀ req status, buildPostRequest minifyF gzipF o filename data = some req →
      respond req = some status → status ≠ 200 →
      post minifyF gzipF o filename data respond = false) ∧
    (∀ req, buildPostRequest minifyF gzipF o filename data = some req →
      respond req = none →
      post minifyF gzipF o filename data respond = false) := by
  refine ⟨?_, ?_, ?_, ?_⟩
  · intro hm hn
    simp [buildPostRequest, hm, hn]
  · intro req status hreq hresp
    simp [post, hreq, hresp]
  · intro req status hreq hresp hne
    simp [post, hreq, hresp, hne]
  · intro req hreq hresp
    simp [post, hreq, hresp]

/-- C5 witness: with an identity minifier and a gzip model prepending a
byte, the built request has the three headers and the gzipped body;
status 200 succeeds, status 204 fails, and a transport error fails. -/
theorem post_spec_witness :
    buildPostRequest (fun d => some d) (fun d => 0 :: d)
        ⟨60, "d", "o", ".xml", 5, false, 180, "u", "tok", true, true, ",", ":9090"⟩
        "f.xml" [1, 2, 3] =
      some { method  := "POST"
             url     := "u"
             headers := [("X-Access-Token", "tok"),
                         ("X-File-Name", "f.xml"),
                         ("Content-Encoding", "gzip")]
             body    := [0, 1, 2, 3] } ∧
    (post (fun d => some d) (fun d => 0 :: d)
        ⟨60, "d", "o", ".xml", 5, false, 180, "u", "tok", true, true, ",", ":9090"⟩
        "f.xml" [1, 2, 3] (fun _ => some 200) = true ↔ (200 : Nat) = 200) ∧
    post (fun d => some d) (fun d => 0 :: d)
        ⟨60, "d", "o", ".xml", 5, false, 180, "u", "tok", true, true, ",", ":9090"⟩
        "f.xml" [1, 2, 3] (fun _ => some 204) = false ∧
    post (fun d => some d) (fun d => 0 :: d)
        ⟨60, "d", "o", ".xml", 5, false, 180, "u", "tok", true, true, ",", ":9090"⟩
        "f.xml" [1, 2, 3] (fun _ => none) = false :=
  ⟨(post_spec (fun d => some d) (fun d => 0 :: d) _ "f.xml" [1, 2, 3] [1, 2, 3]
      (fun _ => some 200)).1 rfl (by decide),
   (post_spec (fun d => some d) (fun d => 0 :: d) _ "f.xml" [1, 2, 3] [1, 2, 3]
      (fun _ => some 200)).2.1 _ 200 (by rfl) rfl,
   (post_spec (fun d => some d) (fun d => 0 :: d) _ "f.xml" [1, 2, 3] [1, 2, 3]
      (fun _ => some 204)).2.2.1 _ 204 (by rfl) rfl (by decide),
   (post_spec (fun d => some d) (fun d => 0 :: d) _ "f.xml" [1, 2, 3] [1, 2, 3]
      (fun _ => none)).2.2.2 _ (by rfl) rfl⟩

/-! ## Claims about the worker run (parser.go, parse) -/

/-- C7: after a successful upload, the original pre-compression payload
is zipped into a single-entry archive named after the source file with
the .zip suffix in the output directory exactly when the zip policy is
set, and the original file is removed from the watch directory exactly
when the clear policy or the zip policy is set; with neither policy the
run only uploads and signals, leaving the file in place. -/
theorem parse_post_upload_policy (o : options) (orc : ParseOracles)
    (name : String) (buf : List Nat)
    (h1 : orc.finishedOk = true) (h2 : orc.readResult = some buf)
    (h3 : orc.sendOk = true) (h4 : orc.zipOk = true) (h5 : orc.removeOk = true) :
    parse o orc name =
      Ev.upload buf ::
        ((if o.zip then
            [Ev.zipWrite (pathJoin o.out (name ++ ".zip")) (zipit name buf)]
          else []) ++
         (if o.clear || o.zip then [Ev.remove (pathJoin o.dir name)] else []) ++
         [Ev.signal]) := by
  rw [parse, parseBody, h2]
  by_cases hz : o.zip
  · simp [h1, h3, h4, h5, hz]
  · by_cases hc : o.clear
    · simp [h1, h3, h4, h5, hz, hc]
    · simp [h1, h3, h4, h5, hz, hc]

/-- C7 witness: a run with the zip policy set and the clear policy
unset zips the original payload and removes the source file. -/
theorem parse_post_upload_policy_witness :
    parse ⟨60, "d", "o", ".xml", 5, false, 180, "u", "t", true, false, ",", ":9090"⟩
        ⟨true, some [1], true, true, true⟩ "f.xml" =
      [Ev.upload [1],
       Ev.zipWrite "o/f.xml.zip" (zipit "f.xml" [1]),
       Ev.remove "d/f.xml",
       Ev.signal] := by
  have h := parse_post_upload_policy
    ⟨60, "d", "o", ".xml", 5, false, 180, "u", "t", true, false, ",", ":9090"⟩
    ⟨true, some [1], true, true, true⟩ "f.xml" [1] rfl rfl rfl rfl rfl
  simpa [pathJoin] using h

/-- C8: every worker run emits the completion signal exactly once, as
its final event, on every exit path — fatal paths included, in builds
where a fatal error does not hard-exit the process. -/
theorem parse_signal_once (o : options) (orc : ParseOracles) (name : String) :
    (parse o orc name).count Ev.signal = 1 ∧
    (parse o orc name).getLast? = some Ev.signal := by
  have hbody : Ev.signal ∉ parseBody o orc name := by
    obtain ⟨f, r, s, z, rm⟩ := orc
    cases f <;> cases r <;> cases s <;> cases z <;> cases rm <;>
      by_cases hz : o.zip <;> by_cases hc : o.clear <;>
        simp [parseBody, hz, hc]
  constructor
  · rw [parse, List.count_append, List.count_eq_zero.mpr hbody]
    rfl
  · rw [parse]
    simp

end Hooker
